import Mathlib

/-!
# Verification of the S3 → SNS → Lambda → Postgres handler (`main.go`)

The development embeds the three functions of `main.go`
(`getS3EventFromSNSEvent`, `parseS3Event`, `handler`) as Lean functions.

* Go's multiple return values are kept as tuples; a nil pointer or a nil error is `none`.
* The event types of `aws-lambda-go/events` are not part of the repository: they are
  modelled with the members the specification names.
* `json.Unmarshal` is a parameter of the embedded functions, so that what does not depend on
  the decoder is proved for every decoder.  `jsonUnmarshal` is a model of `encoding/json` on
  the event types: a parser of JSON texts (with fuel, shown to be sufficient, and the
  nesting limit of the package), followed by the binding of the parsed value to the Go
  value.  A Go string is modelled by a Lean `String`, so a message is valid UTF-8.
* The database (`sqlx`) is a parameter giving the outcome of each call; the calls and the
  log lines the handler issues are recorded, in order, in a trace.  `log.Fatalln` ends the
  run with exit status 1; `MustBegin` and `MustExec` end it with a panic when they fail.
-/

namespace S3ToPostgres

/-! ## Event types -/

/-- Modelled from the spec: `events.SNSEntity` is declared in `aws-lambda-go`; the
spec's notification record "carries an opaque message payload". -/
structure SNSEntity where
  Message : String
  deriving DecidableEq, Repr

/-- Modelled from the spec: `events.SNSEventRecord`, the record of a notification
envelope; only the `SNS` member is read by the program. -/
structure SNSEventRecord where
  SNS : SNSEntity
  deriving DecidableEq, Repr

/-- Modelled from the spec: `events.SNSEvent`, "a wrapper containing an ordered
sequence of notification records". -/
structure SNSEvent where
  Records : List SNSEventRecord
  deriving DecidableEq, Repr

/-- Modelled from the spec: `events.S3Bucket`; JSON member `name`. -/
structure S3Bucket where
  Name : String
  deriving DecidableEq, Repr

/-- Modelled from the spec: `events.S3Object`; JSON member `key`. -/
structure S3Object where
  Key : String
  deriving DecidableEq, Repr

/-- Modelled from the spec: `events.S3Entity`; JSON members `bucket` and `object`. -/
structure S3Entity where
  Bucket : S3Bucket
  Object : S3Object
  deriving DecidableEq, Repr

/-- Modelled from the spec: `events.S3EventRecord`; JSON member `s3`. -/
structure S3EventRecord where
  S3 : S3Entity
  deriving DecidableEq, Repr

/-- Modelled from the spec: `events.S3Event`, the Upload Descriptor: "an ordered
sequence of upload records; each record names a container identifier (string) and
an object key (string)"; JSON member `Records`. -/
structure S3Event where
  Records : List S3EventRecord
  deriving DecidableEq, Repr

/-- The zero value of `events.S3EventRecord`. -/
def S3EventRecord.zero : S3EventRecord := ⟨⟨⟨""⟩, ⟨""⟩⟩⟩

/-- The zero value of `events.S3Event` (`var s3Event events.S3Event`). -/
def S3Event.zero : S3Event := ⟨[]⟩

/-! ## Errors -/

/-- The two kinds of failure of `json.Unmarshal` on syntactically checked input:
`*json.SyntaxError` and `*json.UnmarshalTypeError` (the JSON kind met and the Go
type it could not be stored in). -/
inductive JsonError where
  | syntaxError
  | unmarshalTypeError (value : String) (goType : String)
  deriving DecidableEq, Repr

/-- Go `error` values the program handles: `errors.New` strings, the decoder's
errors, and errors of the database driver. -/
inductive GoError where
  | errorString (s : String)
  | json (e : JsonError)
  | driver (s : String)
  deriving DecidableEq, Repr

/-- Signature of `json.Unmarshal(data, &v)` for `v : events.S3Event`: the value
after decoding and the error returned. -/
abbrev Unmarshaler := String → S3Event → S3Event × Option GoError

/-! ## A model of `encoding/json` on the event types -/

/-- A parsed JSON value.  Numbers keep their literal; strings and member names are already unquoted;
members are kept in the order of the text, duplicates included. -/
inductive Json where
  | null
  | bool (b : Bool)
  | num (lit : List Char)
  | str (s : List Char)
  | arr (xs : List Json)
  | obj (kvs : List (List Char × Json))
  deriving Repr

instance : Inhabited Json := ⟨Json.null⟩

/-- White space of JSON: space, tab, carriage return, line feed. -/
def isSpace (c : Char) : Bool := c = ' ' || c = '\t' || c = '\r' || c = '\n'

/-- Drops leading white space. -/
def skipSpace : List Char → List Char
  | [] => []
  | c :: cs => if isSpace c then skipSpace cs else c :: cs

/-- Value of a hexadecimal digit of a `\u` escape, in either case. -/
def hexVal (c : Char) : Option Nat :=
  if '0' ≤ c ∧ c ≤ '9' then some (c.toNat - '0'.toNat)
  else if 'a' ≤ c ∧ c ≤ 'f' then some (c.toNat - 'a'.toNat + 10)
  else if 'A' ≤ c ∧ c ≤ 'F' then some (c.toNat - 'A'.toNat + 10)
  else none

/-- One item of a string literal: a character (written plainly or by a two-character escape)
or the 16-bit unit of a `\uXXXX` escape. -/
inductive StrItem where
  | lit (c : Char)
  | unit (n : Nat)
  deriving Repr, DecidableEq

/-- The character a two-character escape stands for. -/
def simpleEscape (e : Char) : Option Char :=
  if e = '"' then some '"'
  else if e = '\\' then some '\\'
  else if e = '/' then some '/'
  else if e = 'b' then some (Char.ofNat 8)
  else if e = 'f' then some (Char.ofNat 12)
  else if e = 'n' then some '\n'
  else if e = 'r' then some '\r'
  else if e = 't' then some '\t'
  else none

/-- State of the string scanner: in plain text, after a backslash, or inside `\uXXXX` with `k`
digits still to come after the next one and `acc` the value read so far. -/
inductive StrState where
  | plain
  | esc
  | hex (k : Nat) (acc : Nat)
  deriving Repr, DecidableEq

/-- Scans a string literal after its opening quote, up to and including the closing quote.
It fails on a control character below U+0020, an unknown escape, a bad hexadecimal digit,
or the end of the text. -/
def scanString : StrState → List Char → Option (List StrItem × List Char)
  | _, [] => none
  | StrState.plain, c :: cs =>
    if c = '"' then some ([], cs)
    else if c = '\\' then scanString StrState.esc cs
    else if c.toNat < 0x20 then none
    else (scanString StrState.plain cs).map (fun p => (StrItem.lit c :: p.1, p.2))
  | StrState.esc, c :: cs =>
    if c = 'u' then scanString (StrState.hex 3 0) cs
    else
      match simpleEscape c with
      | none => none
      | some x => (scanString StrState.plain cs).map (fun p => (StrItem.lit x :: p.1, p.2))
  | StrState.hex k acc, c :: cs =>
    match hexVal c with
    | none => none
    | some v =>
      match k with
      | 0 => (scanString StrState.plain cs).map (fun p => (StrItem.unit (acc * 16 + v) :: p.1, p.2))
      | k + 1 => scanString (StrState.hex k (acc * 16 + v)) cs

/-- U+FFFD, which `encoding/json` substitutes for an invalid UTF-16 surrogate. -/
def replacementChar : Char := Char.ofNat 0xFFFD

/-- A leading surrogate, U+D800 to U+DBFF. -/
def isHighSurrogate (n : Nat) : Bool := decide (0xD800 ≤ n ∧ n < 0xDC00)

/-- A trailing surrogate, U+DC00 to U+DFFF. -/
def isLowSurrogate (n : Nat) : Bool := decide (0xDC00 ≤ n ∧ n < 0xE000)

/-- The code point of a surrogate pair. -/
def decodeSurrogates (hi lo : Nat) : Char :=
  Char.ofNat ((hi - 0xD800) * 0x400 + (lo - 0xDC00) + 0x10000)

/-- Turns the items of a string literal into its characters.  The first argument is a leading
surrogate waiting for its trailing one: a valid pair gives one character, a surrogate without
its partner gives U+FFFD. -/
def unquoteItems : Option Nat → List StrItem → List Char
  | none, [] => []
  | some _, [] => [replacementChar]
  | none, StrItem.lit c :: rest => c :: unquoteItems none rest
  | some _, StrItem.lit c :: rest => replacementChar :: c :: unquoteItems none rest
  | none, StrItem.unit n :: rest =>
    if isHighSurrogate n then unquoteItems (some n) rest
    else if isLowSurrogate n then replacementChar :: unquoteItems none rest
    else Char.ofNat n :: unquoteItems none rest
  | some hi, StrItem.unit n :: rest =>
    if isLowSurrogate n then decodeSurrogates hi n :: unquoteItems none rest
    else if isHighSurrogate n then replacementChar :: unquoteItems (some n) rest
    else replacementChar :: Char.ofNat n :: unquoteItems none rest

/-- The characters of a string literal (after its opening quote) and the text after it. -/
def parseString (cs : List Char) : Option (List Char × List Char) :=
  (scanString StrState.plain cs).map (fun p => (unquoteItems none p.1, p.2))

/-- A decimal digit. -/
def isDigit (c : Char) : Bool := decide ('0' ≤ c ∧ c ≤ '9')

/-- The longest run of digits at the head of the text, and the rest. -/
def takeDigits : List Char → List Char × List Char
  | [] => ([], [])
  | c :: cs => if isDigit c then ((takeDigits cs).1.cons c, (takeDigits cs).2) else ([], c :: cs)

/-- Integer part of a number: `0`, or a non-zero digit followed by digits. -/
def scanInt (cs : List Char) : Option (List Char × List Char) :=
  match cs with
  | [] => none
  | c :: rest =>
    if c = '0' then some (['0'], rest)
    else if isDigit c then some (c :: (takeDigits rest).1, (takeDigits rest).2)
    else none

/-- Optional fraction: a point followed by at least one digit. -/
def scanFrac (cs : List Char) : Option (List Char × List Char) :=
  match cs with
  | [] => some ([], [])
  | c :: rest =>
    if c = '.' then
      if (takeDigits rest).1 = [] then none
      else some ('.' :: (takeDigits rest).1, (takeDigits rest).2)
    else some ([], c :: rest)

/-- Optional sign of an exponent. -/
def scanSign (cs : List Char) : List Char × List Char :=
  match cs with
  | [] => ([], [])
  | c :: rest => if c = '+' ∨ c = '-' then ([c], rest) else ([], c :: rest)

/-- Optional exponent: `e` or `E`, an optional sign, at least one digit. -/
def scanExp (cs : List Char) : Option (List Char × List Char) :=
  match cs with
  | [] => some ([], [])
  | c :: rest =>
    if c = 'e' ∨ c = 'E' then
      if (takeDigits (scanSign rest).2).1 = [] then none
      else some (c :: (scanSign rest).1 ++ (takeDigits (scanSign rest).2).1,
        (takeDigits (scanSign rest).2).2)
    else some ([], c :: rest)

/-- A number after its optional minus sign: its literal and the text after it. -/
def scanNumber (cs : List Char) : Option (List Char × List Char) :=
  match scanInt cs with
  | none => none
  | some (i, r1) =>
    match scanFrac r1 with
    | none => none
    | some (f, r2) =>
      match scanExp r2 with
      | none => none
      | some (e, r3) => some (i ++ f ++ e, r3)

/-- The rest of the text after the given characters, when the text starts with them. -/
def expectLit (lit : List Char) (cs : List Char) : Option (List Char) :=
  if lit.isPrefixOf cs then some (cs.drop lit.length) else none

/-- Arrays and objects may be nested this deep (the limit of `encoding/json` since Go 1.15). -/
def maxNestingDepth : Nat := 10000

mutual
/-- Reads one JSON value, after white space.  `fuel` bounds the number of nested calls and
`depth` is the number of arrays and objects already open. -/
def parseValue : Nat → Nat → List Char → Option (Json × List Char)
  | 0, _, _ => none
  | fuel + 1, depth, cs =>
    match skipSpace cs with
    | [] => none
    | c :: rest =>
      if c = '{' then
        if maxNestingDepth ≤ depth then none
        else
          match skipSpace rest with
          | [] => none
          | c2 :: rest2 =>
            if c2 = '}' then some (Json.obj [], rest2)
            else (parseMembers fuel (depth + 1) (c2 :: rest2)).map (fun p => (Json.obj p.1, p.2))
      else if c = '[' then
        if maxNestingDepth ≤ depth then none
        else
          match skipSpace rest with
          | [] => none
          | c2 :: rest2 =>
            if c2 = ']' then some (Json.arr [], rest2)
            else (parseElements fuel (depth + 1) (c2 :: rest2)).map (fun p => (Json.arr p.1, p.2))
      else if c = '"' then (parseString rest).map (fun p => (Json.str p.1, p.2))
      else if c = 't' then (expectLit ['r', 'u', 'e'] rest).map (fun r => (Json.bool true, r))
      else if c = 'f' then (expectLit ['a', 'l', 's', 'e'] rest).map (fun r => (Json.bool false, r))
      else if c = 'n' then (expectLit ['u', 'l', 'l'] rest).map (fun r => (Json.null, r))
      else if c = '-' then (scanNumber rest).map (fun p => (Json.num ('-' :: p.1), p.2))
      else if isDigit c then (scanNumber (c :: rest)).map (fun p => (Json.num p.1, p.2))
      else none
/-- Reads the elements of an array after its opening bracket (the array is not empty), up to
and including the closing bracket. -/
def parseElements : Nat → Nat → List Char → Option (List Json × List Char)
  | 0, _, _ => none
  | fuel + 1, depth, cs =>
    match parseValue fuel depth cs with
    | none => none
    | some (v, rest) =>
      match skipSpace rest with
      | [] => none
      | c :: rest2 =>
        if c = ',' then (parseElements fuel depth rest2).map (fun p => (v :: p.1, p.2))
        else if c = ']' then some ([v], rest2)
        else none
/-- Reads the members of an object after its opening brace (the object is not empty), up to
and including the closing brace. -/
def parseMembers : Nat → Nat → List Char → Option (List (List Char × Json) × List Char)
  | 0, _, _ => none
  | fuel + 1, depth, cs =>
    match skipSpace cs with
    | [] => none
    | q :: rest =>
      if q = '"' then
        match parseString rest with
        | none => none
        | some (k, rest1) =>
          match skipSpace rest1 with
          | [] => none
          | c :: rest2 =>
            if c = ':' then
              match parseValue fuel depth rest2 with
              | none => none
              | some (v, rest3) =>
                match skipSpace rest3 with
                | [] => none
                | c3 :: rest4 =>
                  if c3 = ',' then (parseMembers fuel depth rest4).map (fun p => ((k, v) :: p.1, p.2))
                  else if c3 = '}' then some ([(k, v)], rest4)
                  else none
            else none
      else none
end

/-- The JSON value of a text: one value, with only white space after it.  The fuel is
the length of the text plus one, which `parse_fuel_adequate` shows to be enough. -/
def parseJson (data : String) : Option Json :=
  match parseValue (data.length + 1) 0 data.data with
  | none => none
  | some (v, rest) => if skipSpace rest = [] then some v else none

/-- A text is valid JSON when the parser, given some amount of fuel, reads one value from it
and only white space follows. -/
def ValidJson (data : String) : Prop :=
  ∃ fuel v rest, parseValue fuel 0 data.data = some (v, rest) ∧ skipSpace rest = []

/-! ### Binding a JSON value to the event types -/

/-- Case folding of member names: ASCII letters to upper case, and the two letters outside
ASCII whose simple fold is an ASCII letter, U+017F (long s) and U+212A (Kelvin sign). -/
def foldRune (c : Char) : Char :=
  if 'a' ≤ c ∧ c ≤ 'z' then Char.ofNat (c.toNat - 32)
  else if c = Char.ofNat 0x17F then 'S'
  else if c = Char.ofNat 0x212A then 'K'
  else c

/-- A member name of the text matches a field name when the two are equal after case folding:
`encoding/json` prefers an exact match and accepts a case-insensitive one, and the names of
the fields of one struct here differ after folding. -/
def keyMatches (name : String) (key : List Char) : Bool :=
  decide (key.map foldRune = name.data.map foldRune)

/-- The kind of a JSON value as `UnmarshalTypeError.Value` names it. -/
def Json.kind : Json → String
  | Json.null => "null"
  | Json.bool _ => "bool"
  | Json.num _ => "number"
  | Json.str _ => "string"
  | Json.arr _ => "array"
  | Json.obj _ => "object"

/-- The decoder keeps the earliest type error and goes on decoding. -/
def firstError (a b : Option JsonError) : Option JsonError :=
  match a with
  | some e => some e
  | none => b

/-- Decoding into a Go `string`: a JSON string is stored, `null` leaves the value as it is, any
other kind is a type error and leaves the value as it is. -/
def decodeString (j : Json) (old : String) : String × Option JsonError :=
  match j with
  | Json.str s => (String.mk s, none)
  | Json.null => (old, none)
  | _ => (old, some (JsonError.unmarshalTypeError j.kind "string"))

/-- Decoding into `events.S3Bucket`: the members of an object are stored in order, member `name`
into `Name`, other members ignored; `null` has no effect; any other kind is a type error. -/
def decodeS3Bucket (j : Json) (old : S3Bucket) : S3Bucket × Option JsonError :=
  match j with
  | Json.obj kvs =>
    kvs.foldl (fun acc kv =>
      if keyMatches "name" kv.1 then
        ((⟨(decodeString kv.2 acc.1.Name).1⟩ : S3Bucket),
          firstError acc.2 (decodeString kv.2 acc.1.Name).2)
      else acc) (old, none)
  | Json.null => (old, none)
  | _ => (old, some (JsonError.unmarshalTypeError j.kind "events.S3Bucket"))

/-- Decoding into `events.S3Object`: member `key` into `Key`. -/
def decodeS3Object (j : Json) (old : S3Object) : S3Object × Option JsonError :=
  match j with
  | Json.obj kvs =>
    kvs.foldl (fun acc kv =>
      if keyMatches "key" kv.1 then
        ((⟨(decodeString kv.2 acc.1.Key).1⟩ : S3Object),
          firstError acc.2 (decodeString kv.2 acc.1.Key).2)
      else acc) (old, none)
  | Json.null => (old, none)
  | _ => (old, some (JsonError.unmarshalTypeError j.kind "events.S3Object"))

/-- Decoding into `events.S3Entity`: members `bucket` and `object`. -/
def decodeS3Entity (j : Json) (old : S3Entity) : S3Entity × Option JsonError :=
  match j with
  | Json.obj kvs =>
    kvs.foldl (fun acc kv =>
      if keyMatches "bucket" kv.1 then
        ((⟨(decodeS3Bucket kv.2 acc.1.Bucket).1, acc.1.Object⟩ : S3Entity),
          firstError acc.2 (decodeS3Bucket kv.2 acc.1.Bucket).2)
      else if keyMatches "object" kv.1 then
        ((⟨acc.1.Bucket, (decodeS3Object kv.2 acc.1.Object).1⟩ : S3Entity),
          firstError acc.2 (decodeS3Object kv.2 acc.1.Object).2)
      else acc) (old, none)
  | Json.null => (old, none)
  | _ => (old, some (JsonError.unmarshalTypeError j.kind "events.S3Entity"))

/-- Decoding into `events.S3EventRecord`: member `s3`. -/
def decodeS3EventRecord (j : Json) (old : S3EventRecord) : S3EventRecord × Option JsonError :=
  match j with
  | Json.obj kvs =>
    kvs.foldl (fun acc kv =>
      if keyMatches "s3" kv.1 then
        ((⟨(decodeS3Entity kv.2 acc.1.S3).1⟩ : S3EventRecord),
          firstError acc.2 (decodeS3Entity kv.2 acc.1.S3).2)
      else acc) (old, none)
  | Json.null => (old, none)
  | _ => (old, some (JsonError.unmarshalTypeError j.kind "events.S3EventRecord"))

/-- Decoding the elements of a JSON array into a slice: element `i` is decoded into the value
the backing array holds at index `i`, or into a zero value beyond it. -/
def decodeElements : List Json → List S3EventRecord → List S3EventRecord × Option JsonError
  | [], _ => ([], none)
  | j :: js, backing =>
    ((decodeS3EventRecord j (backing.headD S3EventRecord.zero)).1 :: (decodeElements js backing.tail).1,
      firstError (decodeS3EventRecord j (backing.headD S3EventRecord.zero)).2
        (decodeElements js backing.tail).2)

/-- The slice `Records` while it is decoded: its elements, and the elements left in its backing
array beyond its length by an earlier, longer array of the same text. -/
structure RecordsSlice where
  live : List S3EventRecord
  stale : List S3EventRecord

/-- Decoding into the slice `Records`: an empty array gives a fresh empty slice, an array gives
its decoded elements, `null` gives the nil slice, any other kind is a type error. -/
def decodeRecords (j : Json) (old : RecordsSlice) : RecordsSlice × Option JsonError :=
  match j with
  | Json.arr [] => (⟨[], []⟩, none)
  | Json.arr js =>
    (⟨(decodeElements js (old.live ++ old.stale)).1, (old.live ++ old.stale).drop js.length⟩,
      (decodeElements js (old.live ++ old.stale)).2)
  | Json.null => (⟨[], []⟩, none)
  | _ => (old, some (JsonError.unmarshalTypeError j.kind "[]events.S3EventRecord"))

/-- One member of the top-level object: a member named `Records` is decoded into the slice,
any other member is ignored. -/
def decodeS3EventMember (acc : RecordsSlice × Option JsonError) (kv : List Char × Json) :
    RecordsSlice × Option JsonError :=
  if keyMatches "Records" kv.1 then
    ((decodeRecords kv.2 acc.1).1, firstError acc.2 (decodeRecords kv.2 acc.1).2)
  else acc

/-- Decoding into `events.S3Event`. -/
def decodeS3Event (j : Json) (old : S3Event) : S3Event × Option JsonError :=
  match j with
  | Json.obj kvs =>
    let r := kvs.foldl decodeS3EventMember ((⟨old.Records, []⟩ : RecordsSlice), none)
    (⟨r.1.live⟩, r.2)
  | Json.null => (old, none)
  | _ => (old, some (JsonError.unmarshalTypeError j.kind "events.S3Event"))

/-- Modelled from the spec: `json.Unmarshal` of the imported package `encoding/json`, the spec's
"structured-text decoder", for a destination of type `events.S3Event`.  The text is checked to
be valid JSON first (a `SyntaxError` otherwise), then decoded into the value; the error returned is
the earliest type error. -/
def jsonUnmarshal : Unmarshaler := fun data v =>
  match parseJson data with
  | none => (v, some (GoError.json JsonError.syntaxError))
  | some j => ((decodeS3Event j v).1, (decodeS3Event j v).2.map GoError.json)

/-! ### Encoding -/

/-- A lower-case hexadecimal digit. -/
def hexDigit (n : Nat) : Char := ['0', '1', '2', '3', '4', '5', '6', '7', '8', '9', 'a', 'b', 'c', 'd', 'e', 'f'].getD n '0'

/-- How `json.Marshal` writes one character of a string: quote and backslash are escaped, line
feed, carriage return and tab are written `\n`, `\r`, `\t`, other control characters and `<`, `>`,
`&`, U+2028, U+2029 are written `\uXXXX`, any other character is written as it is. -/
def escapeChar (c : Char) : List Char :=
  if c = '"' then ['\\', '"']
  else if c = '\\' then ['\\', '\\']
  else if c = '\n' then ['\\', 'n']
  else if c = '\r' then ['\\', 'r']
  else if c = '\t' then ['\\', 't']
  else if c.toNat < 0x20 ∨ c = '<' ∨ c = '>' ∨ c = '&' then
    ['\\', 'u', '0', '0', hexDigit (c.toNat / 16), hexDigit (c.toNat % 16)]
  else if c.toNat = 0x2028 ∨ c.toNat = 0x2029 then
    ['\\', 'u', '2', '0', '2', hexDigit (c.toNat % 16)]
  else [c]

/-- The escaped characters of a string. -/
def escapeChars : List Char → List Char
  | [] => []
  | c :: cs => escapeChar c ++ escapeChars cs

/-- A Go string as a JSON string literal. -/
def quote (s : String) : List Char := '"' :: escapeChars s.data ++ ['"']

/-- The JSON text of one record: `{"s3":{"bucket":{"name":...},"object":{"key":...}}}`. -/
def marshalS3EventRecord (r : S3EventRecord) : List Char :=
  "\x7b\"s3\":\x7b\"bucket\":\x7b\"name\":".data ++ quote r.S3.Bucket.Name ++
    "\x7d,\"object\":\x7b\"key\":".data ++ quote r.S3.Object.Key ++ "\x7d\x7d\x7d".data

/-- The records after the first, each preceded by a comma. -/
def marshalRest : List S3EventRecord → List Char
  | [] => []
  | r :: rs => ',' :: marshalS3EventRecord r ++ marshalRest rs

/-- The records of a descriptor, separated by commas. -/
def marshalElements : List S3EventRecord → List Char
  | [] => []
  | r :: rs => marshalS3EventRecord r ++ marshalRest rs

/-- Modelled from the spec: `json.Marshal` of the imported package `encoding/json` on an
`events.S3Event` with a non-nil slice, the "JSON-encoded storage-upload event envelope" of the
spec: `{"Records":[...]}`. -/
def jsonMarshal (d : S3Event) : String :=
  String.mk ("\x7b\"Records\":[".data ++ marshalElements d.Records ++ "]\x7d".data)

/-- The JSON value `json.Marshal` writes for one record. -/
def recordJson (r : S3EventRecord) : Json :=
  Json.obj [(['s', '3'], Json.obj
    [(['b', 'u', 'c', 'k', 'e', 't'], Json.obj [(['n', 'a', 'm', 'e'], Json.str r.S3.Bucket.Name.data)]),
     (['o', 'b', 'j', 'e', 'c', 't'], Json.obj [(['k', 'e', 'y'], Json.str r.S3.Object.Key.data)])])]

/-- The JSON text of a descriptor with the one record `(b, k)`:
`{"Records":[{"s3":{"bucket":{"name":b},"object":{"key":k}}}]}`, the two strings
written as JSON strings. -/
def uploadMessage (b k : String) : String :=
  String.mk ("\x7b\"Records\":[\x7b\"s3\":\x7b\"bucket\":\x7b\"name\":".data ++ quote b ++
    "\x7d,\"object\":\x7b\"key\":".data ++ quote k ++ "\x7d\x7d\x7d]\x7d".data)

/-- A JSON value the slice field `Records` cannot hold: anything but an array or `null`. -/
def notArrayOrNull : Json → Bool
  | Json.arr _ => false
  | Json.null => false
  | _ => true

/-- A JSON value the struct `events.S3Event` cannot hold: anything but an object or `null`. -/
def notObjectOrNull : Json → Bool
  | Json.obj _ => false
  | Json.null => false
  | _ => true

/-- The message of the spec's end-to-end scenario A:
`{"Records":[{"s3":{"bucket":{"name":"my-bucket"},"object":{"key":"photo.png"}}}]}`. -/
def scenarioMessage : String :=
  "\x7b\"Records\":[\x7b\"s3\":\x7b\"bucket\":\x7b\"name\":\"my-bucket\"\x7d,\"object\":\x7b\"key\":\"photo.png\"\x7d\x7d\x7d]\x7d"

/-- The descriptor of scenario A. -/
def scenarioDescriptor : S3Event := ⟨[⟨⟨⟨"my-bucket"⟩, ⟨"photo.png"⟩⟩⟩]⟩

/-! ## `main.go` -/

/-- The constant `dbDriverName`. -/
def dbDriverName : String := "postgres"

/-- The variable `dbDataSourceName`: `fmt.Sprintf("host=%s dbname=%s user=%s password=%s", ...)`
over the four environment variables. -/
def dbDataSourceName (getenv : String → String) : String :=
  "host=" ++ getenv "DB_HOST" ++ " dbname=" ++ getenv "DB_NAME" ++
    " user=" ++ getenv "DB_USER" ++ " password=" ++ getenv "DB_PASSWORD"

/-- Function `getS3EventFromSNSEvent` of `main.go`. -/
def getS3EventFromSNSEvent (unmarshal : Unmarshaler) (snsEvent : SNSEvent) :
    Option S3Event × Option GoError :=
  let s3Event := S3Event.zero
  if snsEvent.Records.length ≠ 1 then
    (none, some (GoError.errorString "Unsupported format: more than 1 record in the SNS Event"))
  else
    match snsEvent.Records with
    | [] => (none, none)
    | record :: _ =>
      let snsRecord := record.SNS
      match unmarshal snsRecord.Message s3Event with
      | (_, some err) => (none, some err)
      | (s3Event, none) => (some s3Event, none)

/-- Function `parseS3Event` of `main.go`. -/
def parseS3Event (s3Event : S3Event) : String × String × Option GoError :=
  if s3Event.Records.length ≠ 1 then
    ("", "", some (GoError.errorString "Unsupported format: more than 1 record in the S3 Event"))
  else
    match s3Event.Records with
    | [] => ("", "", none)
    | record :: _ =>
      let bucket := record.S3.Bucket.Name
      let objectKey := record.S3.Object.Key
      (bucket, objectKey, none)

/-- Outcome of each call the handler makes on the database (`none`: the call
succeeds).  `connect` is `sqlx.Connect`, `beginTx` is `db.MustBegin`, `exec` is
`tx.MustExec`, `commit` is `tx.Commit`. -/
structure Database where
  connect : String → String → Option GoError
  beginTx : Option GoError
  exec : String → List String → Option GoError
  commit : Option GoError

/-- Observable actions of the handler, in program order. -/
inductive Effect where
  | logPrint (line : String)
  | logFatal (err : GoError)
  | dbConnect (driverName dataSourceName : String)
  | dbBegin
  | dbExec (query : String) (args : List String)
  | dbCommit
  deriving DecidableEq, Repr

/-- How a call of `handler` ends: it returns its `error` result, the process exits
(`log.Fatalln` calls `os.Exit(1)`), or it panics (`MustBegin`, `MustExec`, a nil
dereference). -/
inductive Outcome where
  | returned (err : Option GoError)
  | exited (code : Nat)
  | panicked (reason : String)
  deriving DecidableEq, Repr

/-- The text of the insert statement. -/
def insertQuery : String := "INSERT INTO s3_objects (bucket, object_key) VALUES ($1, $2)"

/-- Function `handler` of `main.go`: the trace of its effects and how it ends. -/
def handler (unmarshal : Unmarshaler) (getenv : String → String) (db : Database)
    (snsEvent : SNSEvent) : List Effect × Outcome :=
  match getS3EventFromSNSEvent unmarshal snsEvent with
  | (_, some err) => ([Effect.logFatal err], Outcome.exited 1)
  | (none, none) => ([], Outcome.panicked "nil pointer dereference")
  | (some s3Event, none) =>
    match parseS3Event s3Event with
    | (_, _, some err) => ([Effect.logFatal err], Outcome.exited 1)
    | (s3Bucket, s3ObjectKey, none) =>
      let t1 := [Effect.logPrint ("S3 upload event received from SNS: Bucket = " ++ s3Bucket ++
                  ", Object = " ++ s3ObjectKey ++ "\n"),
                 Effect.dbConnect dbDriverName (dbDataSourceName getenv)]
      match db.connect dbDriverName (dbDataSourceName getenv) with
      | some err => (t1 ++ [Effect.logFatal err], Outcome.exited 1)
      | none =>
        let t2 := t1 ++ [Effect.logPrint "DB connection successful!\n", Effect.dbBegin]
        match db.beginTx with
        | some _ => (t2, Outcome.panicked "MustBegin")
        | none =>
          let t3 := t2 ++ [Effect.dbExec insertQuery [s3Bucket, s3ObjectKey]]
          match db.exec insertQuery [s3Bucket, s3ObjectKey] with
          | some _ => (t3, Outcome.panicked "MustExec")
          | none => (t3 ++ [Effect.dbCommit], Outcome.returned none)

/-! ## The two error values created by `errors.New` -/

/-- The error of `getS3EventFromSNSEvent` on a wrong record count (the spec's
`MalformedEnvelope`). -/
def malformedEnvelope : GoError :=
  GoError.errorString "Unsupported format: more than 1 record in the SNS Event"

/-- The error of `parseS3Event` on a wrong record count (the spec's
`MalformedDescriptor`). -/
def malformedDescriptor : GoError :=
  GoError.errorString "Unsupported format: more than 1 record in the S3 Event"

/-! ## Sample environments for the concrete checks -/

/-- An environment with the four variables unset. -/
def emptyEnv : String → String := fun _ => ""

/-- A database on which every call succeeds. -/
def reachableDb : Database := ⟨fun _ _ => none, none, fun _ _ => none, none⟩

/-- A database on which every call succeeds but the commit. -/
def commitFailingDb : Database :=
  ⟨fun _ _ => none, none, fun _ _ => none, some (GoError.driver "commit failed")⟩

/-- A database that accepts the connection and fails to begin a transaction. -/
def beginFailingDb : Database :=
  ⟨fun _ _ => none, some (GoError.driver "begin failed"), fun _ _ => none, none⟩

/-- A database that refuses the connection. -/
def unreachableDb : Database :=
  ⟨fun _ _ => some (GoError.driver "connection refused"), none, fun _ _ => none, none⟩

/-! ## Lemmas: the parser's fuel -/

/-- Skipping white space does not lengthen the text. -/
theorem skipSpace_length_le (cs : List Char) : (skipSpace cs).length ≤ cs.length := by
  induction cs with
  | nil => simp [skipSpace]
  | cons c cs ih =>
    simp only [skipSpace]
    split
    · simp only [List.length_cons]; omega
    · exact Nat.le_refl _

/-- A scanned string literal consumes at least its closing quote. -/
theorem scanString_length_lt (cs : List Char) :
    ∀ (st : StrState) (items : List StrItem) (rest : List Char),
      scanString st cs = some (items, rest) → rest.length < cs.length := by
  induction cs with
  | nil => intro st items rest h; cases st <;> simp [scanString] at h
  | cons c cs ih =>
    intro st items rest h
    have step : ∀ st2 items2, scanString st2 cs = some (items2, rest) →
        rest.length < (c :: cs).length := fun st2 items2 h2 => by
      have := ih st2 items2 rest h2
      simp only [List.length_cons]; omega
    cases st with
    | plain =>
      simp only [scanString] at h
      split at h
      · simp only [Option.some.injEq, Prod.mk.injEq] at h
        obtain ⟨-, rfl⟩ := h
        simp
      · split at h
        · exact step _ _ h
        · split at h
          · cases h
          · cases hs : scanString StrState.plain cs with
            | none => simp [hs] at h
            | some p =>
              obtain ⟨i2, r2⟩ := p
              simp [hs] at h
              obtain ⟨-, rfl⟩ := h
              exact step _ _ hs
    | esc =>
      simp only [scanString] at h
      split at h
      · exact step _ _ h
      · split at h
        · cases h
        · cases hs : scanString StrState.plain cs with
          | none => simp [hs] at h
          | some p =>
            obtain ⟨i2, r2⟩ := p
            simp [hs] at h
            obtain ⟨-, rfl⟩ := h
            exact step _ _ hs
    | hex k acc =>
      simp only [scanString] at h
      split at h
      · cases h
      · split at h
        · cases hs : scanString StrState.plain cs with
          | none => simp [hs] at h
          | some p =>
            obtain ⟨i2, r2⟩ := p
            simp [hs] at h
            obtain ⟨-, rfl⟩ := h
            exact step _ _ hs
        · exact step _ _ h

/-- A parsed string literal consumes at least its closing quote. -/
theorem parseString_length_lt (cs s rest : List Char) (h : parseString cs = some (s, rest)) :
    rest.length < cs.length := by
  unfold parseString at h
  cases hs : scanString StrState.plain cs with
  | none => simp [hs] at h
  | some p =>
    obtain ⟨i2, r2⟩ := p
    simp [hs] at h
    obtain ⟨-, rfl⟩ := h
    exact scanString_length_lt cs _ _ _ hs

/-- The text left after a run of digits is no longer than the text. -/
theorem takeDigits_length_le (cs : List Char) : (takeDigits cs).2.length ≤ cs.length := by
  induction cs with
  | nil => simp [takeDigits]
  | cons c cs ih =>
    simp only [takeDigits]
    split
    · simp only [List.length_cons]; omega
    · exact Nat.le_refl _

/-- The text left after a literal is no longer than the text. -/
theorem expectLit_length_le (lit cs r : List Char) (h : expectLit lit cs = some r) :
    r.length ≤ cs.length := by
  unfold expectLit at h
  split at h
  · simp only [Option.some.injEq] at h
    subst h
    simp
  · cases h


/-- A number consumes at least one character. -/
theorem scanNumber_length_lt (cs lit rest : List Char) (h : scanNumber cs = some (lit, rest)) :
    rest.length < cs.length := by
  unfold scanNumber at h
  cases h1 : scanInt cs with
  | none => simp [h1] at h
  | some p1 =>
    obtain ⟨i, r1⟩ := p1
    cases h2 : scanFrac r1 with
    | none => simp [h1, h2] at h
    | some p2 =>
      obtain ⟨f, r2⟩ := p2
      cases h3 : scanExp r2 with
      | none => simp [h1, h2, h3] at h
      | some p3 =>
        obtain ⟨e, r3⟩ := p3
        simp [h1, h2, h3] at h
        obtain ⟨-, hr⟩ := h
        rw [← hr]
        have l1 : r1.length < cs.length := by
          unfold scanInt at h1
          cases cs with
          | nil => cases h1
          | cons c cs2 =>
            have := takeDigits_length_le cs2
            simp only at h1
            split at h1
            · simp at h1; obtain ⟨-, rfl⟩ := h1; simp
            · split at h1
              · simp at h1; obtain ⟨-, rfl⟩ := h1; simp only [List.length_cons]; omega
              · cases h1
        have l2 : r2.length ≤ r1.length := by
          unfold scanFrac at h2
          cases r1 with
          | nil => simp at h2; obtain ⟨-, rfl⟩ := h2; simp
          | cons c cs2 =>
            have := takeDigits_length_le cs2
            simp only at h2
            split at h2
            · split at h2
              · cases h2
              · simp at h2; obtain ⟨-, rfl⟩ := h2; simp only [List.length_cons]; omega
            · simp at h2; obtain ⟨-, rfl⟩ := h2; simp
        have l3 : r3.length ≤ r2.length := by
          unfold scanExp at h3
          cases r2 with
          | nil => simp at h3; obtain ⟨-, rfl⟩ := h3; simp
          | cons c cs2 =>
            have hs : (scanSign cs2).2.length ≤ cs2.length := by
              unfold scanSign
              cases cs2 with
              | nil => simp
              | cons d ds => simp only; split <;> simp
            have := takeDigits_length_le (scanSign cs2).2
            simp only at h3
            split at h3
            · split at h3
              · cases h3
              · simp at h3; obtain ⟨-, rfl⟩ := h3; simp only [List.length_cons]; omega
            · simp at h3; obtain ⟨-, rfl⟩ := h3; simp
        omega


/-- A successful parse consumes at least one character and succeeds, with the same result,
with any fuel that is at least the number of characters consumed. -/
theorem parse_fuel_adequate (fuel : Nat) :
    (∀ depth cs v rest, parseValue fuel depth cs = some (v, rest) →
      rest.length < cs.length ∧
        ∀ n, cs.length - rest.length ≤ n → parseValue n depth cs = some (v, rest)) ∧
    (∀ depth cs vs rest, parseElements fuel depth cs = some (vs, rest) →
      rest.length < cs.length ∧
        ∀ n, cs.length - rest.length ≤ n → parseElements n depth cs = some (vs, rest)) ∧
    (∀ depth cs kvs rest, parseMembers fuel depth cs = some (kvs, rest) →
      rest.length < cs.length ∧
        ∀ n, cs.length - rest.length ≤ n → parseMembers n depth cs = some (kvs, rest)) := by
  induction fuel with
  | zero => simp [parseValue, parseElements, parseMembers]
  | succ fuel ih =>
    obtain ⟨ihV, ihE, ihM⟩ := ih
    refine ⟨?_, ?_, ?_⟩
    · intro depth cs v rest h
      have hsk := skipSpace_length_le cs
      suffices hsuff : rest.length < cs.length ∧
          ∀ n, cs.length - rest.length ≤ n + 1 → parseValue (n + 1) depth cs = some (v, rest) by
        refine ⟨hsuff.1, fun n hn => ?_⟩
        cases n with
        | zero => have := hsuff.1; omega
        | succ n => exact hsuff.2 n hn
      simp only [parseValue] at h ⊢
      cases hs : skipSpace cs with
      | nil => simp [hs] at h
      | cons c r =>
        rw [hs] at h hsk
        simp only [List.length_cons] at hsk
        simp only at h ⊢
        by_cases h1 : c = '{'
        · simp only [h1, if_true] at h ⊢
          by_cases hd : maxNestingDepth ≤ depth
          · simp [hd] at h
          simp only [hd, if_false] at h ⊢
          have hsk2 := skipSpace_length_le r
          cases hs2 : skipSpace r with
          | nil => simp [hs2] at h
          | cons c2 r2 =>
            rw [hs2] at h hsk2
            simp only [List.length_cons] at hsk2
            simp only at h ⊢
            by_cases h2 : c2 = '}'
            · simp only [h2, if_true, Option.some.injEq, Prod.mk.injEq] at h ⊢
              obtain ⟨rfl, rfl⟩ := h
              exact ⟨by omega, fun _ _ => ⟨rfl, rfl⟩⟩
            · simp only [h2, if_false] at h ⊢
              cases hm : parseMembers fuel (depth + 1) (c2 :: r2) with
              | none => simp [hm] at h
              | some p =>
                obtain ⟨kvs, rest2⟩ := p
                simp only [hm, Option.map_some', Option.some.injEq, Prod.mk.injEq] at h
                obtain ⟨rfl, rfl⟩ := h
                obtain ⟨hl, hn⟩ := ihM _ _ _ _ hm
                simp only [List.length_cons] at hl hn
                refine ⟨by omega, fun n hle => ?_⟩
                rw [hn n (by omega)]
                rfl
        · simp only [h1, if_false] at h ⊢
          by_cases h3 : c = '['
          · simp only [h3, if_true] at h ⊢
            by_cases hd : maxNestingDepth ≤ depth
            · simp [hd] at h
            simp only [hd, if_false] at h ⊢
            have hsk2 := skipSpace_length_le r
            cases hs2 : skipSpace r with
            | nil => simp [hs2] at h
            | cons c2 r2 =>
              rw [hs2] at h hsk2
              simp only [List.length_cons] at hsk2
              simp only at h ⊢
              by_cases h2 : c2 = ']'
              · simp only [h2, if_true, Option.some.injEq, Prod.mk.injEq] at h ⊢
                obtain ⟨rfl, rfl⟩ := h
                exact ⟨by omega, fun _ _ => ⟨rfl, rfl⟩⟩
              · simp only [h2, if_false] at h ⊢
                cases hm : parseElements fuel (depth + 1) (c2 :: r2) with
                | none => simp [hm] at h
                | some p =>
                  obtain ⟨vs, rest2⟩ := p
                  simp only [hm, Option.map_some', Option.some.injEq, Prod.mk.injEq] at h
                  obtain ⟨rfl, rfl⟩ := h
                  obtain ⟨hl, hn⟩ := ihE _ _ _ _ hm
                  simp only [List.length_cons] at hl hn
                  refine ⟨by omega, fun n hle => ?_⟩
                  rw [hn n (by omega)]
                  rfl
          · simp only [h3, if_false] at h ⊢
            refine ⟨?_, fun _ _ => h⟩
            by_cases h4 : c = '"'
            · simp only [h4, if_true] at h
              cases hp : parseString r with
              | none => simp [hp] at h
              | some p =>
                obtain ⟨s, r2⟩ := p
                have := parseString_length_lt _ _ _ hp
                simp only [hp, Option.map_some', Option.some.injEq, Prod.mk.injEq] at h
                obtain ⟨-, rfl⟩ := h
                omega
            · simp only [h4, if_false] at h
              have lit : ∀ (l : List Char) (f : List Char → Json × List Char),
                  (∀ x, (f x).2 = x) → Option.map f (expectLit l r) = some (v, rest) →
                  rest.length < cs.length := by
                intro l f hf hh
                cases he : expectLit l r with
                | none => simp [he] at hh
                | some x =>
                  have := expectLit_length_le _ _ _ he
                  simp only [he, Option.map_some', Option.some.injEq] at hh
                  have e2 := hf x
                  rw [hh] at e2
                  simp only at e2
                  subst e2
                  omega
              have numc : ∀ (inp : List Char) (f : List Char × List Char → Json × List Char),
                  inp.length ≤ r.length + 1 → (∀ x, (f x).2 = x.2) →
                  Option.map f (scanNumber inp) = some (v, rest) →
                  rest.length < cs.length := by
                intro inp f hi hf hh
                cases he : scanNumber inp with
                | none => simp [he] at hh
                | some x =>
                  obtain ⟨l, r2⟩ := x
                  have := scanNumber_length_lt _ _ _ he
                  simp only [he, Option.map_some', Option.some.injEq] at hh
                  have e2 := hf (l, r2)
                  rw [hh] at e2
                  simp only at e2
                  subst e2
                  omega
              by_cases h5 : c = 't'
              · simp only [h5, if_true] at h
                exact lit _ _ (fun _ => rfl) h
              · simp only [h5, if_false] at h
                by_cases h6 : c = 'f'
                · simp only [h6, if_true] at h
                  exact lit _ _ (fun _ => rfl) h
                · simp only [h6, if_false] at h
                  by_cases h7 : c = 'n'
                  · simp only [h7, if_true] at h
                    exact lit _ _ (fun _ => rfl) h
                  · simp only [h7, if_false] at h
                    by_cases h8 : c = '-'
                    · simp only [h8, if_true] at h
                      exact numc _ _ (by omega) (fun _ => rfl) h
                    · simp only [h8, if_false] at h
                      by_cases h9 : isDigit c = true
                      · simp only [h9, if_true] at h
                        exact numc _ _ (by simp) (fun _ => rfl) h
                      · simp [h9] at h
    · intro depth cs vs rest h
      suffices hsuff : rest.length < cs.length ∧
          ∀ n, cs.length - rest.length ≤ n + 1 → parseElements (n + 1) depth cs = some (vs, rest) by
        refine ⟨hsuff.1, fun n hn => ?_⟩
        cases n with
        | zero => have := hsuff.1; omega
        | succ n => exact hsuff.2 n hn
      simp only [parseElements] at h ⊢
      cases hv : parseValue fuel depth cs with
      | none => simp [hv] at h
      | some p =>
        obtain ⟨v, r1⟩ := p
        obtain ⟨hl, hn⟩ := ihV _ _ _ _ hv
        simp only [hv] at h
        have hsk := skipSpace_length_le r1
        cases hs : skipSpace r1 with
        | nil => simp [hs] at h
        | cons c r2 =>
          rw [hs] at h hsk
          simp only [List.length_cons] at hsk
          simp only at h
          by_cases h1 : c = ','
          · simp only [h1, if_true] at h
            cases he : parseElements fuel depth r2 with
            | none => simp [he] at h
            | some q =>
              obtain ⟨vs2, r3⟩ := q
              obtain ⟨hl2, hn2⟩ := ihE _ _ _ _ he
              simp only [he, Option.map_some', Option.some.injEq, Prod.mk.injEq] at h
              obtain ⟨rfl, rfl⟩ := h
              refine ⟨by omega, fun n hle => ?_⟩
              rw [hn n (by omega)]
              simp only [hs, h1, if_true]
              rw [hn2 n (by omega)]
              rfl
          · simp only [h1, if_false] at h
            by_cases h2 : c = ']'
            · simp only [h2, if_true, Option.some.injEq, Prod.mk.injEq] at h
              obtain ⟨rfl, rfl⟩ := h
              refine ⟨by omega, fun n hle => ?_⟩
              rw [hn n (by omega)]
              simp [hs, h2]
            · simp [h2] at h
    · intro depth cs kvs rest h
      suffices hsuff : rest.length < cs.length ∧
          ∀ n, cs.length - rest.length ≤ n + 1 → parseMembers (n + 1) depth cs = some (kvs, rest) by
        refine ⟨hsuff.1, fun n hn => ?_⟩
        cases n with
        | zero => have := hsuff.1; omega
        | succ n => exact hsuff.2 n hn
      simp only [parseMembers] at h ⊢
      have hsk0 := skipSpace_length_le cs
      cases hs0 : skipSpace cs with
      | nil => simp [hs0] at h
      | cons q r0 =>
        rw [hs0] at h hsk0
        simp only [List.length_cons] at hsk0
        simp only at h ⊢
        by_cases hq : q = '"'
        · simp only [hq, if_true] at h ⊢
          cases hp : parseString r0 with
          | none => simp [hp] at h
          | some pk =>
            obtain ⟨k, r1⟩ := pk
            have hlk := parseString_length_lt _ _ _ hp
            simp only [hp] at h ⊢
            have hsk1 := skipSpace_length_le r1
            cases hs1 : skipSpace r1 with
            | nil => simp [hs1] at h
            | cons c r2 =>
              rw [hs1] at h hsk1
              simp only [List.length_cons] at hsk1
              simp only at h ⊢
              by_cases hc : c = ':'
              · simp only [hc, if_true] at h ⊢
                cases hv : parseValue fuel depth r2 with
                | none => simp [hv] at h
                | some p =>
                  obtain ⟨v, r3⟩ := p
                  obtain ⟨hl, hn⟩ := ihV _ _ _ _ hv
                  simp only [hv] at h
                  have hsk := skipSpace_length_le r3
                  cases hs : skipSpace r3 with
                  | nil => simp [hs] at h
                  | cons c3 r4 =>
                    rw [hs] at h hsk
                    simp only [List.length_cons] at hsk
                    simp only at h
                    by_cases h1 : c3 = ','
                    · simp only [h1, if_true] at h
                      cases he : parseMembers fuel depth r4 with
                      | none => simp [he] at h
                      | some q2 =>
                        obtain ⟨kvs2, r5⟩ := q2
                        obtain ⟨hl2, hn2⟩ := ihM _ _ _ _ he
                        simp only [he, Option.map_some', Option.some.injEq, Prod.mk.injEq] at h
                        obtain ⟨rfl, rfl⟩ := h
                        refine ⟨by omega, fun n hle => ?_⟩
                        rw [hn n (by omega)]
                        simp only [hs, h1, if_true]
                        rw [hn2 n (by omega)]
                        rfl
                    · simp only [h1, if_false] at h
                      by_cases h2 : c3 = '}'
                      · simp only [h2, if_true, Option.some.injEq, Prod.mk.injEq] at h
                        obtain ⟨rfl, rfl⟩ := h
                        refine ⟨by omega, fun n hle => ?_⟩
                        rw [hn n (by omega)]
                        simp [hs, h2]
                      · simp [h2] at h
              · simp [hc] at h
        · simp [hq] at h

/-- Fuel equal to the length of the input, plus one, is enough: a text that parses with
some fuel parses with the fuel `parseJson` supplies. -/
theorem parseJson_of_parseValue (data : String) (fuel : Nat) (v : Json) (rest : List Char)
    (h : parseValue fuel 0 data.data = some (v, rest)) (hr : skipSpace rest = []) :
    parseJson data = some v := by
  obtain ⟨hl, hn⟩ := (parse_fuel_adequate fuel).1 _ _ _ _ h
  have h2 := hn (data.length + 1) (by simp only [String.length]; omega)
  simp [parseJson, h2, hr]


/-- Validity does not depend on the fuel: a text is valid JSON exactly when `parseJson`
reads it. -/
theorem validJson_iff_parseJson (data : String) :
    ValidJson data ↔ ∃ j, parseJson data = some j := by
  constructor
  · rintro ⟨fuel, v, rest, h, hr⟩
    exact ⟨v, parseJson_of_parseValue data fuel v rest h hr⟩
  · rintro ⟨j, h⟩
    unfold parseJson at h
    cases hp : parseValue (data.length + 1) 0 data.data with
    | none => simp [hp] at h
    | some p =>
      obtain ⟨v, rest⟩ := p
      simp only [hp] at h
      split at h
      · exact ⟨_, v, rest, hp, by assumption⟩
      · cases h

/-! ## Lemmas: the decoder undoes the encoder -/

/-- Reading a hexadecimal digit written by the encoder gives back its value. -/
theorem hexVal_hexDigit : ∀ n, n < 16 → hexVal (hexDigit n) = some n := by decide

/-- A `\u` escape of the code of a character decodes to that character: the code of a character
is never a surrogate. -/
theorem unquoteItems_unit (n : Nat) (c : Char) (hc : c.toNat = n) (xs : List StrItem) :
    unquoteItems none (StrItem.unit n :: xs) = c :: unquoteItems none xs := by
  have hv := c.valid
  have hh : isHighSurrogate n = false := by
    simp only [isHighSurrogate, decide_eq_false_iff_not]
    rcases hv with h | h <;> simp only [Char.toNat] at hc <;> omega
  have hl : isLowSurrogate n = false := by
    simp only [isLowSurrogate, decide_eq_false_iff_not]
    rcases hv with h | h <;> simp only [Char.toNat] at hc <;> omega
  subst hc
  simp [unquoteItems, hh, hl]

/-- Scanning the escaped form of a character yields one item, which decodes to the character. -/
theorem scanString_escapeChar (c : Char) (rest : List Char) :
    ∃ it, scanString StrState.plain (escapeChar c ++ rest) =
        (scanString StrState.plain rest).map (fun p => (it :: p.1, p.2)) ∧
      ∀ xs, unquoteItems none (it :: xs) = c :: unquoteItems none xs := by
  unfold escapeChar
  split_ifs with h1 h2 h3 h4 h5 h6 h7
  · subst h1
    exact ⟨StrItem.lit '"', by simp [scanString, simpleEscape], fun xs => by simp [unquoteItems]⟩
  · subst h2
    exact ⟨StrItem.lit '\\', by simp [scanString, simpleEscape], fun xs => by simp [unquoteItems]⟩
  · subst h3
    exact ⟨StrItem.lit '\n', by simp [scanString, simpleEscape], fun xs => by simp [unquoteItems]⟩
  · subst h4
    exact ⟨StrItem.lit '\r', by simp [scanString, simpleEscape], fun xs => by simp [unquoteItems]⟩
  · subst h5
    exact ⟨StrItem.lit '\t', by simp [scanString, simpleEscape], fun xs => by simp [unquoteItems]⟩
  · have hlt : c.toNat < 256 := by
      rcases h6 with h | h | h | h
      · omega
      · subst h; decide
      · subst h; decide
      · subst h; decide
    refine ⟨StrItem.unit c.toNat, ?_, fun xs => unquoteItems_unit _ c rfl xs⟩
    have ha : c.toNat / 16 < 16 := by omega
    have hb : c.toNat % 16 < 16 := by omega
    have h0 : hexVal '0' = some 0 := by decide
    have e : c.toNat / 16 * 16 + c.toNat % 16 = c.toNat := by omega
    simp [scanString, simpleEscape, h0, hexVal_hexDigit _ ha, hexVal_hexDigit _ hb, e]
  · refine ⟨StrItem.unit c.toNat, ?_, fun xs => unquoteItems_unit _ c rfl xs⟩
    have hb : c.toNat % 16 < 16 := by omega
    have h0 : hexVal '0' = some 0 := by decide
    have h2 : hexVal '2' = some 2 := by decide
    have e : 8224 + c.toNat % 16 = c.toNat := by omega
    simp [scanString, simpleEscape, h0, h2, hexVal_hexDigit _ hb, e]
  · refine ⟨StrItem.lit c, ?_, fun xs => by simp [unquoteItems]⟩
    have h8 : ¬ c.toNat < 32 := fun h => h6 (Or.inl h)
    simp [scanString, h1, h2, h8]

/-- Parsing the escaped characters of a string, closed by a quote, gives the string back. -/
theorem parseString_escapeChars (s rest : List Char) :
    parseString (escapeChars s ++ '"' :: rest) = some (s, rest) := by
  have key : ∃ items, scanString StrState.plain (escapeChars s ++ '"' :: rest) = some (items, rest) ∧
      unquoteItems none items = s := by
    induction s with
    | nil => exact ⟨[], by simp [escapeChars, scanString], by simp [unquoteItems]⟩
    | cons c cs ih =>
      obtain ⟨items, h1, h2⟩ := ih
      obtain ⟨it, h3, h4⟩ := scanString_escapeChar c (escapeChars cs ++ '"' :: rest)
      refine ⟨it :: items, ?_, ?_⟩
      · simp only [escapeChars, List.append_assoc]
        rw [h3, h1]
        rfl
      · rw [h4, h2]
  obtain ⟨items, h1, h2⟩ := key
  simp [parseString, h1, h2]


/-- The member name `s3`. -/
theorem parseString_s3 (rest : List Char) :
    parseString ('s' :: '3' :: '"' :: rest) = some (['s', '3'], rest) := by
  simp [parseString, scanString, unquoteItems]

/-- The member name `bucket`. -/
theorem parseString_bucket (rest : List Char) :
    parseString ('b' :: 'u' :: 'c' :: 'k' :: 'e' :: 't' :: '"' :: rest) =
      some (['b', 'u', 'c', 'k', 'e', 't'], rest) := by
  simp [parseString, scanString, unquoteItems]

/-- The member name `name`. -/
theorem parseString_name (rest : List Char) :
    parseString ('n' :: 'a' :: 'm' :: 'e' :: '"' :: rest) = some (['n', 'a', 'm', 'e'], rest) := by
  simp [parseString, scanString, unquoteItems]

/-- The member name `object`. -/
theorem parseString_object (rest : List Char) :
    parseString ('o' :: 'b' :: 'j' :: 'e' :: 'c' :: 't' :: '"' :: rest) =
      some (['o', 'b', 'j', 'e', 'c', 't'], rest) := by
  simp [parseString, scanString, unquoteItems]

/-- The member name `key`. -/
theorem parseString_key (rest : List Char) :
    parseString ('k' :: 'e' :: 'y' :: '"' :: rest) = some (['k', 'e', 'y'], rest) := by
  simp [parseString, scanString, unquoteItems]

/-- The member name `Records`. -/
theorem parseString_Records (rest : List Char) :
    parseString ('R' :: 'e' :: 'c' :: 'o' :: 'r' :: 'd' :: 's' :: '"' :: rest) =
      some (['R', 'e', 'c', 'o', 'r', 'd', 's'], rest) := by
  simp [parseString, scanString, unquoteItems]

/-- The text of a record parses to its JSON value, two levels below the top. -/
theorem parseValue_record (n : Nat) (r : S3EventRecord) (rest : List Char) :
    parseValue (n + 8) 2 (marshalS3EventRecord r ++ rest) = some (recordJson r, rest) := by
  simp [marshalS3EventRecord, quote, parseValue, parseMembers, skipSpace, isSpace, maxNestingDepth,
    parseString_escapeChars, recordJson, parseString_s3, parseString_bucket, parseString_name,
    parseString_object, parseString_key]

/-- The texts of a non-empty list of records, closed by a bracket, parse to their JSON values. -/
theorem parseElements_marshalRest (rs : List S3EventRecord) :
    ∀ (n : Nat) (r : S3EventRecord) (rest : List Char),
      parseElements (n + rs.length + 9) 2 (marshalS3EventRecord r ++ (marshalRest rs ++ ']' :: rest)) =
        some (recordJson r :: rs.map recordJson, rest) := by
  induction rs with
  | nil =>
    intro n r rest
    have e : n + ([] : List S3EventRecord).length + 9 = (n + 8) + 1 := by simp
    rw [e, parseElements, parseValue_record]
    simp [marshalRest, skipSpace, isSpace]
  | cons r2 rs2 ih =>
    intro n r rest
    have e : n + (r2 :: rs2).length + 9 = ((n + rs2.length + 1) + 8) + 1 := by
      simp only [List.length_cons]; omega
    have e2 : (n + rs2.length + 1) + 8 = n + rs2.length + 9 := by omega
    rw [e, parseElements, parseValue_record, e2]
    simp [marshalRest, skipSpace, isSpace, ih]

/-- The text of a descriptor parses to the object with the one member `Records`. -/
theorem parseValue_marshal (n : Nat) (rs : List S3EventRecord) (rest : List Char) :
    parseValue (n + rs.length + 11) 0 ((jsonMarshal ⟨rs⟩).data ++ rest) =
      some (Json.obj [(['R', 'e', 'c', 'o', 'r', 'd', 's'], Json.arr (rs.map recordJson))], rest) := by
  cases rs with
  | nil =>
    simp [jsonMarshal, marshalElements, parseValue, parseMembers, skipSpace, isSpace,
      parseString_Records, maxNestingDepth]
  | cons r rs =>
    have h := parseElements_marshalRest rs n r ('}' :: rest)
    have e : n + (r :: rs).length + 11 = (n + rs.length + 9) + 1 + 1 + 1 := by
      simp only [List.length_cons]; omega
    rw [e, parseValue]
    simp [jsonMarshal, marshalElements, skipSpace, isSpace, maxNestingDepth]
    rw [parseMembers]
    simp [skipSpace, isSpace, parseString_Records]
    rw [parseValue]
    simp [marshalS3EventRecord] at h
    simp [skipSpace, isSpace, maxNestingDepth, h]

/-- Each record takes at least one character. -/
theorem length_marshalRest (rs : List S3EventRecord) : rs.length ≤ (marshalRest rs).length := by
  induction rs with
  | nil => simp
  | cons r rs ih => simp [marshalRest]; omega

/-- The text of a descriptor is long enough for the fuel its parse needs. -/
theorem length_jsonMarshal (rs : List S3EventRecord) :
    rs.length + 10 ≤ (jsonMarshal ⟨rs⟩).length := by
  cases rs with
  | nil => simp [jsonMarshal, marshalElements, String.length]
  | cons r rs =>
    have h := length_marshalRest rs
    simp [jsonMarshal, marshalElements, marshalS3EventRecord, String.length]
    omega

/-- The encoding of a descriptor is valid JSON, with this value. -/
theorem parseJson_jsonMarshal (rs : List S3EventRecord) :
    parseJson (jsonMarshal ⟨rs⟩) =
      some (Json.obj [(['R', 'e', 'c', 'o', 'r', 'd', 's'], Json.arr (rs.map recordJson))]) := by
  have hl := length_jsonMarshal rs
  have h := parseValue_marshal ((jsonMarshal ⟨rs⟩).length - rs.length - 10) rs []
  have e : (jsonMarshal ⟨rs⟩).length - rs.length - 10 + rs.length + 11 =
      (jsonMarshal ⟨rs⟩).length + 1 := by omega
  rw [e, List.append_nil] at h
  simp [parseJson, h, skipSpace]

/-- The member names the encoder writes match their own field and no other. -/
theorem keyMatches_lits :
    keyMatches "Records" ['R', 'e', 'c', 'o', 'r', 'd', 's'] = true ∧
    keyMatches "s3" ['s', '3'] = true ∧
    keyMatches "bucket" ['b', 'u', 'c', 'k', 'e', 't'] = true ∧
    keyMatches "bucket" ['o', 'b', 'j', 'e', 'c', 't'] = false ∧
    keyMatches "object" ['b', 'u', 'c', 'k', 'e', 't'] = false ∧
    keyMatches "object" ['o', 'b', 'j', 'e', 'c', 't'] = true ∧
    keyMatches "name" ['n', 'a', 'm', 'e'] = true ∧
    keyMatches "key" ['k', 'e', 'y'] = true := by decide

/-- Binding the JSON value of a record gives the record, whatever the value held before. -/
theorem decodeS3EventRecord_recordJson (r old : S3EventRecord) :
    decodeS3EventRecord (recordJson r) old = (r, none) := by
  obtain ⟨_, h2, h3, h4, h5, h6, h7, h8⟩ := keyMatches_lits
  simp [decodeS3EventRecord, recordJson, decodeS3Entity, decodeS3Bucket, decodeS3Object,
    decodeString, firstError, h2, h3, h4, h5, h6, h7, h8]

/-- Binding the JSON values of records gives the records. -/
theorem decodeElements_recordJson (rs : List S3EventRecord) :
    ∀ backing, decodeElements (rs.map recordJson) backing = (rs, none) := by
  induction rs with
  | nil => intro backing; rfl
  | cons r rs ih =>
    intro backing
    simp [decodeElements, decodeS3EventRecord_recordJson, ih, firstError]

/-- Binding the JSON value of a descriptor gives the descriptor. -/
theorem decodeS3Event_marshalled (rs : List S3EventRecord) (old : S3Event) :
    decodeS3Event (Json.obj [(['R', 'e', 'c', 'o', 'r', 'd', 's'], Json.arr (rs.map recordJson))]) old =
      (⟨rs⟩, none) := by
  obtain ⟨h1, -⟩ := keyMatches_lits
  cases rs with
  | nil => simp [decodeS3Event, decodeS3EventMember, decodeRecords, h1, firstError]
  | cons r rs =>
    have h := decodeElements_recordJson (r :: rs)
    simp only [List.map_cons] at h
    simp [decodeS3Event, decodeS3EventMember, decodeRecords, h1, firstError, h]

/-- The decoder undoes the encoder. -/
theorem jsonUnmarshal_jsonMarshal (d old : S3Event) :
    jsonUnmarshal (jsonMarshal d) old = (d, none) := by
  cases d with
  | mk rs => simp [jsonUnmarshal, parseJson_jsonMarshal, decodeS3Event_marshalled]


/-- The unwrapper on a one-record envelope whose message encodes `d`. -/
theorem getS3EventFromSNSEvent_roundtrip_aux (d : S3Event) (snsEvent : SNSEvent)
    (record : SNSEventRecord) (h1 : snsEvent.Records = [record])
    (h2 : record.SNS.Message = jsonMarshal d) :
    getS3EventFromSNSEvent jsonUnmarshal snsEvent = (some d, none) := by
  simp [getS3EventFromSNSEvent, h1, h2, jsonUnmarshal_jsonMarshal]

/-! ## Lemmas: members of the top-level object -/

/-- An error already recorded is the one the decoder keeps. -/
theorem foldl_decodeS3EventMember_keeps (kvs : List (List Char × Json)) :
    ∀ (acc : RecordsSlice × Option JsonError) (e : JsonError), acc.2 = some e →
      (kvs.foldl decodeS3EventMember acc).2 = some e := by
  induction kvs with
  | nil => intro acc e h; simpa using h
  | cons kv kvs ih =>
    intro acc e h
    rw [List.foldl_cons]
    apply ih
    unfold decodeS3EventMember
    split
    · simp [h, firstError]
    · exact h

/-- Members whose key does not match `Records` leave the value untouched. -/
theorem foldl_decodeS3EventMember_none (kvs : List (List Char × Json))
    (h : ∀ kv ∈ kvs, keyMatches "Records" kv.1 = false) :
    ∀ acc, kvs.foldl decodeS3EventMember acc = acc := by
  induction kvs with
  | nil => intro acc; rfl
  | cons kv kvs ih =>
    intro acc
    have hk : keyMatches "Records" kv.1 = false := h kv (List.mem_cons_self _ _)
    rw [List.foldl_cons]
    rw [ih (fun kv2 hm => h kv2 (List.mem_cons_of_mem _ hm))]
    simp [decodeS3EventMember, hk]

/-- A value that is neither an array nor `null` cannot be stored in the slice. -/
theorem decodeRecords_wrong_type (v : Json) (old : RecordsSlice) (h : notArrayOrNull v = true) :
    (decodeRecords v old).2 =
      some (JsonError.unmarshalTypeError v.kind "[]events.S3EventRecord") := by
  cases v <;> simp [notArrayOrNull] at h <;> simp [decodeRecords]

/-- A `Records` member that is neither an array nor `null` makes decoding fail. -/
theorem foldl_decodeS3EventMember_error (kvs : List (List Char × Json))
    (h : ∃ kv ∈ kvs, keyMatches "Records" kv.1 = true ∧ notArrayOrNull kv.2 = true) :
    ∀ acc, ∃ e, (kvs.foldl decodeS3EventMember acc).2 = some e := by
  induction kvs with
  | nil => obtain ⟨kv, hm, -⟩ := h; cases hm
  | cons kv kvs ih =>
    intro acc
    rw [List.foldl_cons]
    obtain ⟨kv2, hm, hk, hw⟩ := h
    rcases List.mem_cons.mp hm with rfl | hm2
    · cases hacc : acc.2 with
      | some e0 =>
        refine ⟨e0, foldl_decodeS3EventMember_keeps kvs _ e0 ?_⟩
        simp [decodeS3EventMember, hk, hacc, firstError]
      | none =>
        refine ⟨JsonError.unmarshalTypeError kv2.2.kind "[]events.S3EventRecord",
          foldl_decodeS3EventMember_keeps kvs _ _ ?_⟩
        simp only [decodeS3EventMember, hk, if_true, hacc, firstError]
        exact decodeRecords_wrong_type kv2.2 acc.1 hw
    · exact ih ⟨kv2, hm2, hk, hw⟩ _

/-! ## Theorems: record-count checks and field extraction -/

/-- C1: whatever the decoder and whatever the records hold, an envelope whose record
count is not exactly 1 makes `getS3EventFromSNSEvent` return a nil descriptor and the
`MalformedEnvelope` error; the result does not depend on the decoder, so no message is
decoded, and it is the same value for zero records as for several. -/
theorem getS3EventFromSNSEvent_wrong_count (unmarshal : Unmarshaler) (snsEvent : SNSEvent)
    (h : snsEvent.Records.length ≠ 1) :
    getS3EventFromSNSEvent unmarshal snsEvent = (none, some malformedEnvelope) := by
  simp [getS3EventFromSNSEvent, malformedEnvelope, h]

/-- C4: a descriptor whose record count is not exactly 1 makes `parseS3Event` return
the empty bucket name, the empty object key and the `MalformedDescriptor` error. -/
theorem parseS3Event_wrong_count (s3Event : S3Event) (h : s3Event.Records.length ≠ 1) :
    parseS3Event s3Event = ("", "", some malformedDescriptor) := by
  simp [parseS3Event, malformedDescriptor, h]

/-- C5: on a descriptor with exactly one record `parseS3Event` returns that record's
bucket name and object key unchanged, with a nil error, whatever the two strings are. -/
theorem parseS3Event_single_record (s3Event : S3Event) (record : S3EventRecord)
    (h : s3Event.Records = [record]) :
    parseS3Event s3Event = (record.S3.Bucket.Name, record.S3.Object.Key, none) := by
  simp [parseS3Event, h]

/-! ## Theorems: the handler -/

/-- C8: when `getS3EventFromSNSEvent` or `parseS3Event` fails with `err`, the whole
trace of `handler` is the fatal log of `err` and the process exits: no connection is
opened, no transaction begun, no insert issued, whatever the database would answer. -/
theorem handler_extraction_failure (unmarshal : Unmarshaler) (getenv : String → String)
    (db : Database) (snsEvent : SNSEvent) (err : GoError)
    (h : (getS3EventFromSNSEvent unmarshal snsEvent).2 = some err ∨
      ∃ s3Event, getS3EventFromSNSEvent unmarshal snsEvent = (some s3Event, none) ∧
        (parseS3Event s3Event).2.2 = some err) :
    handler unmarshal getenv db snsEvent = ([Effect.logFatal err], Outcome.exited 1) := by
  rcases h with h | ⟨s3Event, h1, h2⟩
  · unfold handler
    rcases hg : getS3EventFromSNSEvent unmarshal snsEvent with ⟨d, e⟩
    rw [hg] at h
    simp only at h
    subst h
    cases d <;> rfl
  · unfold handler
    rw [h1]
    rcases hp : parseS3Event s3Event with ⟨b, k, e⟩
    rw [hp] at h2
    simp only at h2
    subst h2
    simp [hp]

/-- C9 (amended): `handler` never returns a non-nil error, and each failure it detects ends
the run.  A failure of either extraction stage, or of `sqlx.Connect`, is logged by
`log.Fatalln` and the process exits there with status 1; a failure of `MustBegin` or of
`MustExec` ends the run by a panic, before the insert, respectively before the commit.
When connection, begin and insert succeed the handler issues the commit and returns nil
whatever `tx.Commit` answers. -/
theorem handler_failure_outcomes (unmarshal : Unmarshaler) (getenv : String → String)
    (db : Database) (snsEvent : SNSEvent) :
    (∀ err, (handler unmarshal getenv db snsEvent).2 = Outcome.returned err → err = none) ∧
    (∀ err, ((getS3EventFromSNSEvent unmarshal snsEvent).2 = some err ∨
        ∃ s3Event, getS3EventFromSNSEvent unmarshal snsEvent = (some s3Event, none) ∧
          (parseS3Event s3Event).2.2 = some err) →
      (handler unmarshal getenv db snsEvent).1.getLast? = some (Effect.logFatal err) ∧
      (handler unmarshal getenv db snsEvent).2 = Outcome.exited 1) ∧
    (∀ s3Event bucket key,
      getS3EventFromSNSEvent unmarshal snsEvent = (some s3Event, none) →
      parseS3Event s3Event = (bucket, key, none) →
      (∀ err, db.connect dbDriverName (dbDataSourceName getenv) = some err →
        (handler unmarshal getenv db snsEvent).1.getLast? = some (Effect.logFatal err) ∧
        (handler unmarshal getenv db snsEvent).2 = Outcome.exited 1) ∧
      (db.connect dbDriverName (dbDataSourceName getenv) = none →
        (∀ err, db.beginTx = some err →
          (handler unmarshal getenv db snsEvent).1.getLast? = some Effect.dbBegin ∧
          (handler unmarshal getenv db snsEvent).2 = Outcome.panicked "MustBegin") ∧
        (db.beginTx = none →
          (∀ err, db.exec insertQuery [bucket, key] = some err →
            (handler unmarshal getenv db snsEvent).1.getLast? =
              some (Effect.dbExec insertQuery [bucket, key]) ∧
            (handler unmarshal getenv db snsEvent).2 = Outcome.panicked "MustExec") ∧
          (db.exec insertQuery [bucket, key] = none →
            (handler unmarshal getenv db snsEvent).1.getLast? = some Effect.dbCommit ∧
            (handler unmarshal getenv db snsEvent).2 = Outcome.returned none)))) := by
  refine ⟨?_, ?_, ?_⟩
  · intro err
    unfold handler
    rcases getS3EventFromSNSEvent unmarshal snsEvent with ⟨_ | d, _ | e⟩ <;> simp
    rcases parseS3Event d with ⟨b, k, _ | e⟩ <;> simp
    cases db.connect dbDriverName (dbDataSourceName getenv) <;> simp
    cases db.beginTx <;> simp
    cases db.exec insertQuery [b, k] <;> simp
    intro h
    exact h.symm
  · rintro err (h | ⟨s3Event, h1, h2⟩)
    · unfold handler
      rcases hg : getS3EventFromSNSEvent unmarshal snsEvent with ⟨d, e⟩
      rw [hg] at h
      simp only at h
      subst h
      simp
    · unfold handler
      rw [h1]
      rcases hp : parseS3Event s3Event with ⟨b, k, e⟩
      rw [hp] at h2
      simp only at h2
      subst h2
      simp [hp]
  · intro s3Event bucket key h1 h2
    refine ⟨?_, ?_⟩
    · intro err hc
      simp [handler, h1, h2, hc]
    · intro hc
      refine ⟨?_, ?_⟩
      · intro err hb
        simp [handler, h1, h2, hc, hb]
      · intro hb
        refine ⟨?_, ?_⟩
        · intro err he
          simp [handler, h1, h2, hc, hb, he]
        · intro he
          simp [handler, h1, h2, hc, hb, he]

/-- C10: when both extraction stages succeed and `sqlx.Connect` fails with `err`, the
handler has logged the extracted pair, made the one connection attempt, logs `err` by
`log.Fatalln` and exits; the trace holds no begin, no insert and no commit. -/
theorem handler_connection_failure (unmarshal : Unmarshaler) (getenv : String → String)
    (db : Database) (snsEvent : SNSEvent) (s3Event : S3Event) (bucket key : String)
    (err : GoError)
    (h1 : getS3EventFromSNSEvent unmarshal snsEvent = (some s3Event, none))
    (h2 : parseS3Event s3Event = (bucket, key, none))
    (h3 : db.connect dbDriverName (dbDataSourceName getenv) = some err) :
    handler unmarshal getenv db snsEvent =
      ([Effect.logPrint ("S3 upload event received from SNS: Bucket = " ++ bucket ++
          ", Object = " ++ key ++ "\n"),
        Effect.dbConnect dbDriverName (dbDataSourceName getenv),
        Effect.logFatal err], Outcome.exited 1) := by
  simp [handler, h1, h2, h3]

/-! ## Theorems: decoding the message -/

/-- C2: round trip.  When the envelope has exactly one record and its message is the
JSON encoding of the descriptor `d`, `getS3EventFromSNSEvent` returns `d` and a nil
error: decoding undoes encoding, and the function hands the sole message to the decoder
and returns what the decoder produced, whichever decoder reads the encoding back. -/
theorem getS3EventFromSNSEvent_roundtrip (d : S3Event) (snsEvent : SNSEvent)
    (record : SNSEventRecord) (h1 : snsEvent.Records = [record])
    (h2 : record.SNS.Message = jsonMarshal d) :
    getS3EventFromSNSEvent jsonUnmarshal snsEvent = (some d, none) ∧
      ∀ unmarshal : Unmarshaler, unmarshal (jsonMarshal d) S3Event.zero = (d, none) →
        getS3EventFromSNSEvent unmarshal snsEvent = (some d, none) := by
  refine ⟨getS3EventFromSNSEvent_roundtrip_aux d snsEvent record h1 h2, ?_⟩
  intro unmarshal hu
  simp [getS3EventFromSNSEvent, h1, h2, hu]

/-- C3: when the envelope has exactly one record and its message is not valid JSON,
`getS3EventFromSNSEvent` returns a nil descriptor and the very error the decoder
returned for that message, a `json.SyntaxError`, which is not the `MalformedEnvelope`
error; and with any decoder, the error returned is the one the decoder returned. -/
theorem getS3EventFromSNSEvent_invalid_json (snsEvent : SNSEvent) (record : SNSEventRecord)
    (h1 : snsEvent.Records = [record]) (hv : ¬ ValidJson record.SNS.Message) :
    getS3EventFromSNSEvent jsonUnmarshal snsEvent =
        (none, (jsonUnmarshal record.SNS.Message S3Event.zero).2) ∧
      (jsonUnmarshal record.SNS.Message S3Event.zero).2 =
        some (GoError.json JsonError.syntaxError) ∧
      GoError.json JsonError.syntaxError ≠ malformedEnvelope ∧
      ∀ (unmarshal : Unmarshaler) (err : GoError),
        (unmarshal record.SNS.Message S3Event.zero).2 = some err →
        getS3EventFromSNSEvent unmarshal snsEvent = (none, some err) := by
  have h2 : parseJson record.SNS.Message = none := by
    cases hp : parseJson record.SNS.Message with
    | none => rfl
    | some j => exact absurd ((validJson_iff_parseJson _).mpr ⟨j, hp⟩) hv
  refine ⟨?_, ?_, ?_, ?_⟩
  · simp [getS3EventFromSNSEvent, h1, jsonUnmarshal, h2]
  · simp [jsonUnmarshal, h2]
  · simp [malformedEnvelope]
  · intro unmarshal err he
    rcases hu : unmarshal record.SNS.Message S3Event.zero with ⟨d, e⟩
    rw [hu] at he
    simp only at he
    subst he
    simp [getS3EventFromSNSEvent, h1, hu]

/-- C6: end to end.  For every bucket name `b` and object key `k`, on the envelope whose
one record carries the JSON text `uploadMessage b k`, the two extraction stages return
`(b, k)` with nil errors, and with a database that accepts the connection, the begin and
the insert, `handler` issues the one insert with parameters `(b, k)`, commits, and
returns nil. -/
theorem handler_end_to_end (getenv : String → String) (db : Database) (b k : String)
    (snsEvent : SNSEvent) (record : SNSEventRecord)
    (h1 : snsEvent.Records = [record]) (h2 : record.SNS.Message = uploadMessage b k)
    (hc : db.connect dbDriverName (dbDataSourceName getenv) = none)
    (hb : db.beginTx = none)
    (he : db.exec "INSERT INTO s3_objects (bucket, object_key) VALUES ($1, $2)" [b, k] = none) :
    (∃ s3Event, getS3EventFromSNSEvent jsonUnmarshal snsEvent = (some s3Event, none) ∧
        parseS3Event s3Event = (b, k, none)) ∧
      handler jsonUnmarshal getenv db snsEvent =
        ([Effect.logPrint ("S3 upload event received from SNS: Bucket = " ++ b ++
            ", Object = " ++ k ++ "\n"),
          Effect.dbConnect "postgres" (dbDataSourceName getenv),
          Effect.logPrint "DB connection successful!\n",
          Effect.dbBegin,
          Effect.dbExec "INSERT INTO s3_objects (bucket, object_key) VALUES ($1, $2)" [b, k],
          Effect.dbCommit], Outcome.returned none) := by
  have hm : uploadMessage b k = jsonMarshal ⟨[⟨⟨⟨b⟩, ⟨k⟩⟩⟩]⟩ := by
    simp [uploadMessage, jsonMarshal, marshalElements, marshalRest, marshalS3EventRecord]
  have hg : getS3EventFromSNSEvent jsonUnmarshal snsEvent = (some ⟨[⟨⟨⟨b⟩, ⟨k⟩⟩⟩]⟩, none) :=
    getS3EventFromSNSEvent_roundtrip_aux _ snsEvent record h1 (h2.trans hm)
  have hp : parseS3Event ⟨[⟨⟨⟨b⟩, ⟨k⟩⟩⟩]⟩ = (b, k, none) := by simp [parseS3Event]
  refine ⟨⟨_, hg, hp⟩, ?_⟩
  simp only [insertQuery, dbDriverName] at *
  simp [handler, hg, hp, hc, hb, he, insertQuery, dbDriverName]

/-- C7 (amended): on a one-record envelope whose message is the valid JSON value `j`,
`getS3EventFromSNSEvent` fails with a decoder error when `j` is neither an object nor
`null`, or when `j` is an object with a `Records` member that is neither an array nor
`null`; when `j` is `null` or an object with no `Records` member it succeeds with the
descriptor of zero records, which `parseS3Event` rejects with `MalformedDescriptor`. -/
theorem getS3EventFromSNSEvent_wrong_shape (snsEvent : SNSEvent) (record : SNSEventRecord)
    (j : Json) (h1 : snsEvent.Records = [record])
    (h2 : parseJson record.SNS.Message = some j) :
    (notObjectOrNull j = true →
      getS3EventFromSNSEvent jsonUnmarshal snsEvent =
        (none, some (GoError.json (JsonError.unmarshalTypeError j.kind "events.S3Event")))) ∧
    (∀ kvs, j = Json.obj kvs →
      (∃ kv ∈ kvs, keyMatches "Records" kv.1 = true ∧ notArrayOrNull kv.2 = true) →
      ∃ e, getS3EventFromSNSEvent jsonUnmarshal snsEvent = (none, some (GoError.json e))) ∧
    ((j = Json.null ∨ ∃ kvs, j = Json.obj kvs ∧ ∀ kv ∈ kvs, keyMatches "Records" kv.1 = false) →
      getS3EventFromSNSEvent jsonUnmarshal snsEvent = (some S3Event.zero, none) ∧
      parseS3Event S3Event.zero = ("", "", some malformedDescriptor)) := by
  refine ⟨?_, ?_, ?_⟩
  · intro h
    cases j <;> simp [notObjectOrNull] at h <;>
      simp [getS3EventFromSNSEvent, h1, jsonUnmarshal, h2, decodeS3Event, Json.kind]
  · rintro kvs rfl hex
    obtain ⟨e, he⟩ := foldl_decodeS3EventMember_error kvs hex (⟨[], []⟩, none)
    refine ⟨e, ?_⟩
    simp [getS3EventFromSNSEvent, h1, jsonUnmarshal, h2, decodeS3Event, S3Event.zero, he]
  · intro h
    refine ⟨?_, by simp [parseS3Event, S3Event.zero, malformedDescriptor]⟩
    rcases h with rfl | ⟨kvs, rfl, hno⟩
    · simp [getS3EventFromSNSEvent, h1, jsonUnmarshal, h2, decodeS3Event]
    · simp [getS3EventFromSNSEvent, h1, jsonUnmarshal, h2, decodeS3Event, S3Event.zero,
        foldl_decodeS3EventMember_none kvs hno]

/-! ## Concrete checks -/

set_option maxRecDepth 100000 in
/-- Scenario A is decoded to its descriptor. -/
theorem jsonUnmarshal_scenarioMessage :
    jsonUnmarshal scenarioMessage S3Event.zero = (scenarioDescriptor, none) := by
  decide

/-- C1 at an envelope of two records, one of them not JSON. -/
theorem getS3EventFromSNSEvent_wrong_count_witness :
    ([⟨⟨"not json"⟩⟩, ⟨⟨scenarioMessage⟩⟩] : List SNSEventRecord).length ≠ 1 ∧
      getS3EventFromSNSEvent jsonUnmarshal ⟨[⟨⟨"not json"⟩⟩, ⟨⟨scenarioMessage⟩⟩]⟩ =
        (none, some malformedEnvelope) :=
  ⟨by decide, getS3EventFromSNSEvent_wrong_count jsonUnmarshal _ (by decide)⟩

/-- C4 at the descriptor with no record. -/
theorem parseS3Event_wrong_count_witness :
    (S3Event.zero).Records.length ≠ 1 ∧
      parseS3Event S3Event.zero = ("", "", some malformedDescriptor) :=
  ⟨by decide, parseS3Event_wrong_count S3Event.zero (by decide)⟩

/-- C5 at a record whose bucket name has blanks and capitals and whose key has 44
characters. -/
theorem parseS3Event_single_record_witness :
    parseS3Event ⟨[⟨⟨⟨"  My Bucket "⟩, ⟨"a/very/long/object/key/with/more/than/40.txt"⟩⟩⟩]⟩ =
      ("  My Bucket ", "a/very/long/object/key/with/more/than/40.txt", none) :=
  parseS3Event_single_record _ ⟨⟨⟨"  My Bucket "⟩, ⟨"a/very/long/object/key/with/more/than/40.txt"⟩⟩⟩ rfl

set_option maxRecDepth 100000 in
/-- C9 (amended) at scenario A with a database that fails to begin a transaction: the run
ends by the panic of `MustBegin`, right after the begin was attempted. -/
theorem handler_failure_outcomes_witness :
    (handler jsonUnmarshal emptyEnv beginFailingDb ⟨[⟨⟨scenarioMessage⟩⟩]⟩).1.getLast? =
        some Effect.dbBegin ∧
      (handler jsonUnmarshal emptyEnv beginFailingDb ⟨[⟨⟨scenarioMessage⟩⟩]⟩).2 =
        Outcome.panicked "MustBegin" :=
  ((handler_failure_outcomes jsonUnmarshal emptyEnv beginFailingDb
      ⟨[⟨⟨scenarioMessage⟩⟩]⟩).2.2 scenarioDescriptor "my-bucket" "photo.png"
      (by decide) (by decide)).2 rfl |>.1 (GoError.driver "begin failed") rfl

set_option maxRecDepth 100000 in
/-- C9 fails at scenario A with a database whose commit fails: every call up to the commit
is issued, the commit fails, and `handler` returns nil; the run ends neither by an exit nor
by a panic. -/
theorem handler_commit_failure_returns_nil :
    commitFailingDb.commit = some (GoError.driver "commit failed") ∧
      handler jsonUnmarshal emptyEnv commitFailingDb ⟨[⟨⟨scenarioMessage⟩⟩]⟩ =
        ([Effect.logPrint "S3 upload event received from SNS: Bucket = my-bucket, Object = photo.png\n",
          Effect.dbConnect "postgres" (dbDataSourceName emptyEnv),
          Effect.logPrint "DB connection successful!\n",
          Effect.dbBegin,
          Effect.dbExec "INSERT INTO s3_objects (bucket, object_key) VALUES ($1, $2)"
            ["my-bucket", "photo.png"],
          Effect.dbCommit], Outcome.returned none) ∧
      (∀ code, (handler jsonUnmarshal emptyEnv commitFailingDb ⟨[⟨⟨scenarioMessage⟩⟩]⟩).2 ≠
        Outcome.exited code) ∧
      (∀ reason, (handler jsonUnmarshal emptyEnv commitFailingDb ⟨[⟨⟨scenarioMessage⟩⟩]⟩).2 ≠
        Outcome.panicked reason) := by
  have h : (handler jsonUnmarshal emptyEnv commitFailingDb ⟨[⟨⟨scenarioMessage⟩⟩]⟩).2 =
      Outcome.returned none := by decide
  refine ⟨rfl, by decide, ?_, ?_⟩
  · intro code hc
    rw [h] at hc
    cases hc
  · intro reason hr
    rw [h] at hr
    cases hr

/-- C8 at the envelope with no record (scenario B). -/
theorem handler_extraction_failure_witness :
    handler jsonUnmarshal emptyEnv reachableDb ⟨[]⟩ =
      ([Effect.logFatal malformedEnvelope], Outcome.exited 1) :=
  handler_extraction_failure jsonUnmarshal emptyEnv reachableDb ⟨[]⟩ malformedEnvelope
    (Or.inl (by decide))

/-- The encoder writes scenario A's message for scenario A's descriptor. -/
theorem jsonMarshal_scenarioDescriptor : scenarioMessage = jsonMarshal scenarioDescriptor := by
  decide

/-- C2 at scenario A. -/
theorem getS3EventFromSNSEvent_roundtrip_witness :
    getS3EventFromSNSEvent jsonUnmarshal ⟨[⟨⟨scenarioMessage⟩⟩]⟩ = (some scenarioDescriptor, none) :=
  (getS3EventFromSNSEvent_roundtrip scenarioDescriptor ⟨[⟨⟨scenarioMessage⟩⟩]⟩
    ⟨⟨scenarioMessage⟩⟩ rfl jsonMarshal_scenarioDescriptor).1

/-- The text `not json` is not valid JSON. -/
theorem not_validJson_not_json : ¬ ValidJson "not json" := by
  intro h
  obtain ⟨j, hj⟩ := (validJson_iff_parseJson _).mp h
  have hn : parseJson "not json" = none := rfl
  rw [hn] at hj
  cases hj

/-- C3 at the message `not json`. -/
theorem getS3EventFromSNSEvent_invalid_json_witness :
    ¬ ValidJson "not json" ∧
      getS3EventFromSNSEvent jsonUnmarshal ⟨[⟨⟨"not json"⟩⟩]⟩ =
        (none, (jsonUnmarshal "not json" S3Event.zero).2) ∧
      (jsonUnmarshal "not json" S3Event.zero).2 = some (GoError.json JsonError.syntaxError) ∧
      GoError.json JsonError.syntaxError ≠ malformedEnvelope :=
  have h := getS3EventFromSNSEvent_invalid_json ⟨[⟨⟨"not json"⟩⟩]⟩ ⟨⟨"not json"⟩⟩ rfl
    not_validJson_not_json
  ⟨not_validJson_not_json, h.1, h.2.1, h.2.2.1⟩

/-- Scenario A's message is `uploadMessage` at `my-bucket` and `photo.png`. -/
theorem scenarioMessage_eq : scenarioMessage = uploadMessage "my-bucket" "photo.png" := by
  decide

/-- C6 at scenario A: bucket `my-bucket`, key `photo.png`, a reachable database. -/
theorem handler_end_to_end_witness :
    (∃ s3Event, getS3EventFromSNSEvent jsonUnmarshal ⟨[⟨⟨scenarioMessage⟩⟩]⟩ = (some s3Event, none) ∧
        parseS3Event s3Event = ("my-bucket", "photo.png", none)) ∧
      handler jsonUnmarshal emptyEnv reachableDb ⟨[⟨⟨scenarioMessage⟩⟩]⟩ =
        ([Effect.logPrint ("S3 upload event received from SNS: Bucket = " ++ "my-bucket" ++
            ", Object = " ++ "photo.png" ++ "\n"),
          Effect.dbConnect "postgres" (dbDataSourceName emptyEnv),
          Effect.logPrint "DB connection successful!\n",
          Effect.dbBegin,
          Effect.dbExec "INSERT INTO s3_objects (bucket, object_key) VALUES ($1, $2)"
            ["my-bucket", "photo.png"],
          Effect.dbCommit], Outcome.returned none) :=
  handler_end_to_end emptyEnv reachableDb "my-bucket" "photo.png" ⟨[⟨⟨scenarioMessage⟩⟩]⟩
    ⟨⟨scenarioMessage⟩⟩ rfl scenarioMessage_eq rfl rfl rfl

/-- The text `{}` is the JSON object with no member. -/
theorem parseJson_empty_object : parseJson "\x7b\x7d" = some (Json.obj []) := by
  rfl

/-- C7 fails at the message `{}`: it is valid JSON without a `Records` member, and
`getS3EventFromSNSEvent` returns a descriptor and a nil error, not a decoder error; the
rejection comes from `parseS3Event`. -/
theorem getS3EventFromSNSEvent_empty_object_accepted :
    ValidJson "\x7b\x7d" ∧ parseJson "\x7b\x7d" = some (Json.obj []) ∧
      getS3EventFromSNSEvent jsonUnmarshal ⟨[⟨⟨"\x7b\x7d"⟩⟩]⟩ = (some ⟨[]⟩, none) ∧
      (¬ ∃ e, (getS3EventFromSNSEvent jsonUnmarshal ⟨[⟨⟨"\x7b\x7d"⟩⟩]⟩).2 = some e) ∧
      parseS3Event ⟨[]⟩ = ("", "", some malformedDescriptor) := by
  have h : getS3EventFromSNSEvent jsonUnmarshal ⟨[⟨⟨"\x7b\x7d"⟩⟩]⟩ = (some ⟨[]⟩, none) := by
    decide
  refine ⟨(validJson_iff_parseJson _).mpr ⟨_, parseJson_empty_object⟩, rfl, h, ?_, by decide⟩
  rintro ⟨e, he⟩
  rw [h] at he
  cases he

/-- The text `{"Records":5}` is an object whose `Records` member is a number. -/
theorem parseJson_records_number :
    parseJson "\x7b\"Records\":5\x7d" =
      some (Json.obj [(['R', 'e', 'c', 'o', 'r', 'd', 's'], Json.num ['5'])]) := by
  rfl

/-- C7 (amended) at the message `{"Records":5}`: a decoder error. -/
theorem getS3EventFromSNSEvent_wrong_shape_witness :
    ∃ e, getS3EventFromSNSEvent jsonUnmarshal ⟨[⟨⟨"\x7b\"Records\":5\x7d"⟩⟩]⟩ =
      (none, some (GoError.json e)) :=
  (getS3EventFromSNSEvent_wrong_shape ⟨[⟨⟨"\x7b\"Records\":5\x7d"⟩⟩]⟩ ⟨⟨"\x7b\"Records\":5\x7d"⟩⟩
    _ rfl parseJson_records_number).2.1 _ rfl
    ⟨(['R', 'e', 'c', 'o', 'r', 'd', 's'], Json.num ['5']), by simp, by decide, rfl⟩

set_option maxRecDepth 100000 in
/-- C10 at scenario A with a database that refuses the connection (scenario D). -/
theorem handler_connection_failure_witness :
    handler jsonUnmarshal emptyEnv unreachableDb ⟨[⟨⟨scenarioMessage⟩⟩]⟩ =
      ([Effect.logPrint ("S3 upload event received from SNS: Bucket = " ++ "my-bucket" ++
          ", Object = " ++ "photo.png" ++ "\n"),
        Effect.dbConnect dbDriverName (dbDataSourceName emptyEnv),
        Effect.logFatal (GoError.driver "connection refused")], Outcome.exited 1) :=
  handler_connection_failure jsonUnmarshal emptyEnv unreachableDb ⟨[⟨⟨scenarioMessage⟩⟩]⟩
    scenarioDescriptor "my-bucket" "photo.png" (GoError.driver "connection refused")
    (by decide) (by decide) rfl

end S3ToPostgres
